import Mathlib

/-!
A shallow embedding of the `findcert` command-line tool.  The repository
contains two variants of the same program:

* the *direct* variant (the unnamed source file): `getCertificates` runs
  `SELECT certificate FROM certificate_and_identities WHERE name_value LIKE $1
  ORDER BY certificate_id DESC LIMIT $2;` and collects the raw DER bytes of
  each row; `run` then parses every certificate, logs a
  `CommonName: (..) Issued On: (..)` line per row and optionally PEM-encodes
  the bytes;

* the *aggregated* variant (`main.go`): `getCertificates` prepares a CTE query
  against crt.sh, scans eight text columns per row, logs each row and returns
  `nil, nil`.

Pure control flow is translated directly.  The remote database, the SQL
driver, and the x509 parser are external collaborators; their outcomes are
supplied by explicit environment records (`DirectEnv`, `AggEnv`), while the
semantics of the direct variant's SQL text (LIKE filter, ORDER BY, LIMIT) is
modelled as a Lean function over an explicit table state.
-/

/-- Bytes of a DER-encoded certificate, one `Nat` (< 256) per byte. -/
abbrev Bytes := List Nat

/-- A row of the `certificate_and_identities` table as consumed by the direct
variant's query: columns `name_value`, `certificate`, `certificate_id`. -/
structure CertRow where
  name_value : String
  certificate : Bytes
  certificate_id : Int
deriving Repr, DecidableEq

/-- The SQL text of the direct variant (`certificateQuery` constant in the
source). -/
def certificateQuery : String :=
  "SELECT certificate FROM certificate_and_identities WHERE name_value LIKE $1 ORDER BY certificate_id DESC LIMIT $2;"

/-- SQL `LIKE` pattern matching as implemented by PostgreSQL: `%` matches any
character sequence (some suffix of the remaining string must match the rest
of the pattern), `_` matches exactly one character, `\` escapes the next
pattern character, any other character matches itself, and the pattern must
cover the entire string.  A pattern ending in a dangling escape matches
nothing (PostgreSQL reports an error for it). -/
def likeMatch : List Char → List Char → Bool
  | [], s => s.isEmpty
  | p :: ps, s =>
    if p = '%' then s.tails.any (fun t => likeMatch ps t)
    else if p = '_' then
      match s with
      | [] => false
      | _ :: t2 => likeMatch ps t2
    else if p = '\\' then
      match ps with
      | [] => false
      | q :: ps2 =>
        match s with
        | [] => false
        | c :: t2 => q == c && likeMatch ps2 t2
    else
      match s with
      | [] => false
      | c :: t2 => (p == c) && likeMatch ps t2

/-- The comparison realised by `ORDER BY certificate_id DESC`. -/
def idGe (a b : CertRow) : Prop := b.certificate_id ≤ a.certificate_id

instance : DecidableRel idGe := fun _ _ => Int.decLe _ _

instance : IsTotal CertRow idGe := ⟨fun a b => le_total b.certificate_id a.certificate_id⟩

instance : IsTrans CertRow idGe := ⟨fun _ _ _ hab hbc => le_trans hbc hab⟩

/-- Semantics of `certificateQuery` executed by the database against a table
state: `$1` is the domain name, used directly as the LIKE pattern (no
wildcards are added around it), `$2` the limit.  PostgreSQL rejects a negative
LIMIT.  Rows are filtered by `name_value LIKE $1`, sorted by descending
`certificate_id`, capped at the limit; the `certificate` column is selected. -/
def directQuery (table : List CertRow) (domainName : String) (limit : Int) :
    Except String (List Bytes) :=
  if limit < 0 then .error "LIMIT must not be negative"
  else .ok (((List.insertionSort idGe
      (table.filter (fun r => likeMatch domainName.data r.name_value.data))).map
        (fun r => r.certificate)).take limit.toNat)

/-- A `github.com/simplylib/multierror` value: the list of collected error
messages, `[]` standing for a nil Go error. -/
abbrev MErr := List String

/-- `multierror.Append err e2`: appending a nil error leaves the value
unchanged, otherwise the new message is added after the existing ones. -/
def mAppend (e : MErr) (e2 : Option String) : MErr :=
  match e2 with
  | none => e
  | some m => e ++ [m]

/-- Outcomes of the external steps taken by the direct variant: `sql.Open`,
the table state behind `QueryContext`, a possible driver/transport failure, a
possible `Rows.Scan` failure (index and driver message), the two `Close`
calls, the x509 parser used later by `run` (returning the rendered common
name and `NotBefore` timestamp), and a possible `pem.Encode` write failure. -/
structure DirectEnv where
  openErr : Option String := none
  table : List CertRow := []
  execErr : Option String := none
  scanFailAt : Option (Nat × String) := none
  rowsCloseErr : Option String := none
  dbCloseErr : Option String := none
  parse : Bytes → Except String (String × String) := fun _ => .error "unused"
  pemFailAt : Option (Nat × String) := none

/-- Rows produced by `db.QueryContext(ctx, certificateQuery, domainName,
limit)`: either a driver failure or the query semantics on the table. -/
def directCursor (env : DirectEnv) (domainName : String) (limit : Int) :
    Except String (List Bytes) :=
  match env.execErr with
  | some e => .error e
  | none => directQuery env.table domainName limit

/-- The `for rows.Next() { rows.Scan(&der); ders = append(ders, der) }` loop of
the direct variant: on the first failing `Scan` the Go code does
`return nil, fmt.Errorf("could not scan row (%w)", err)`, discarding the rows
collected so far; otherwise every row is collected in cursor order. -/
def directScanLoop (rows : List Bytes) (failAt : Option (Nat × String)) :
    List Bytes × MErr :=
  match failAt with
  | some (i, m) =>
    if i < rows.length then ([], ["could not scan row (" ++ m ++ ")"])
    else (rows, [])
  | none => (rows, [])

/-- `getCertificates` of the direct variant.  Its result values are named
(`(certs [][]byte, err error)`), so the deferred handlers mutate the returned
error: `rows.Close` runs first (registered last), then `db.Close`, each
appending its failure via `multierror.Append`.  The `rows.Close` handler is
only registered after `QueryContext` succeeded, and no handler is registered
when `sql.Open` itself fails. -/
def getCertificates_direct (env : DirectEnv) (domainName : String) (limit : Int) :
    List Bytes × MErr :=
  match env.openErr with
  | some e =>
    ([], ["could not open SQL connection to postgres at crt.sh due to error (" ++ e ++ ")"])
  | none =>
    let body :=
      match directCursor env domainName limit with
      | .error e =>
        ([], ["could not execute SQL on postgres for finding certificates (" ++ e ++ ")"])
      | .ok rows =>
        let s := directScanLoop rows env.scanFailAt
        (s.1, mAppend s.2 env.rowsCloseErr)
    (body.1, mAppend body.2 env.dbCloseErr)

/-- One row of the aggregated variant's result set: the eight text columns
scanned into the variables `one` … `eight` in `main.go`. -/
structure Row8 where
  one : String
  two : String
  three : String
  four : String
  five : String
  six : String
  seven : String
  eight : String
deriving Repr, DecidableEq

/-- `log.Println(one, two, three, four, five, six, seven, eight)`: the eight
fields of a row, space-separated, as one log line. -/
def fmtRow (r : Row8) : String :=
  String.intercalate " " [r.one, r.two, r.three, r.four, r.five, r.six, r.seven, r.eight]

/-- Outcomes of the external steps taken by the aggregated variant
(`main.go`): `sql.Open`, `PrepareContext`, `QueryContext`, `rows.Columns`,
the rows selected by the CTE body, a possible `Rows.Scan` failure, and the
three `Close` calls.  The CTE body (full-text search, the `x509_*` SQL
functions, the joins and the `ORDER BY`) runs inside the remote crt.sh
database and is kept abstract as `selected`, the unlimited result sequence in
its final order; the `LIMIT $2` clause is modelled explicitly. -/
structure AggEnv where
  openErr : Option String := none
  prepareErr : Option String := none
  queryErr : Option String := none
  columnsErr : Option String := none
  selected : List Row8 := []
  scanFailAt : Option (Nat × String) := none
  rowsCloseErr : Option String := none
  stmtCloseErr : Option String := none
  dbCloseErr : Option String := none

/-- The `LIMIT $2` clause of the aggregated query applied to the selected
rows; PostgreSQL rejects a negative LIMIT. -/
def aggQuery (selected : List Row8) (limit : Int) : Except String (List Row8) :=
  if limit < 0 then .error "LIMIT must not be negative"
  else .ok (selected.take limit.toNat)

/-- Rows produced by `stmt.QueryContext(ctx, domainName, limit)` in the
aggregated variant: either a driver failure or the limited selection. -/
def aggCursor (env : AggEnv) (limit : Int) : Except String (List Row8) :=
  match env.queryErr with
  | some e => .error e
  | none => aggQuery env.selected limit

/-- The scan-and-log loop of the aggregated variant: each successfully scanned
row is logged immediately; on the first failing `Scan` the Go code does
`return nil, fmt.Errorf("could not scan row (%w)", err)` — the lines already
logged remain visible.  Result: (logged row lines, scan error). -/
def aggScanLoop : List Row8 → Option (Nat × String) → List String × MErr
  | [], _ => ([], [])
  | r :: rs, failAt =>
    match failAt with
    | some (0, m) => ([], ["could not scan row (" ++ m ++ ")"])
    | some (n + 1, m) =>
      let s := aggScanLoop rs (some (n, m))
      (fmtRow r :: s.1, s.2)
    | none =>
      let s := aggScanLoop rs none
      (fmtRow r :: s.1, s.2)

/-- `getCertificates` of the aggregated variant (`main.go`).  Its result
values are NOT named (the signature is `([]string, error)`), so the deferred
`rows.Close`/`stmt.Close`/`db.Close` handlers assign to the local variable
`err` after the return values have already been fixed: the cleanup errors in
`AggEnv` never reach the caller.  The function logs one line per scanned row
and, on every path, returns a nil slice.  Result: ((returned slice, returned
error), logged row lines). -/
def getCertificates_agg (env : AggEnv) (domainName : String) (limit : Int) :
    (List String × MErr) × List String :=
  match env.openErr with
  | some e =>
    (([], ["could not open SQL connection to postgres at crt.sh due to error (" ++ e ++ ")"]), [])
  | none =>
    match env.prepareErr with
    | some e => (([], ["could not prepare SQL query (" ++ e ++ ")"]), [])
    | none =>
      match aggCursor env limit with
      | .error e =>
        (([], ["could not execute SQL on postgres for finding certificates (" ++ e ++ ")"]), [])
      | .ok rows =>
        match env.columnsErr with
        | some e => (([], ["could not get columns (" ++ e ++ ")"]), [])
        | none =>
          let s := aggScanLoop rows env.scanFailAt
          (([], s.2), s.1)

/-- The error value returned by `run` (both variants).  `usage` is
`errExpectedArguments` / `errors.New("expected 1 argument: domain name")`;
the other constructors carry the messages wrapped by `fmt.Errorf`. -/
inductive RunErr where
  | usage
  | getCerts (domainName : String) (es : MErr)
  | certParse (m : String)
  | pemEncodeFail (m : String)
deriving Repr, DecidableEq

/-- Observable outcome of one `run` invocation: the returned error, the
certificate/row entry lines written to the log, and the `getCertificates`
call that was made (domain name and limit), if any. -/
structure RunOut where
  err : Option RunErr
  entries : List String
  called : Option (String × Int)
deriving Repr, DecidableEq

/-- The per-certificate loop at the end of the direct variant's `run`: parse
the DER bytes (failure aborts with a wrapped `CertificateParseError` — the
lines already logged remain), log the
`CommonName: (..) Issued On: (..)` line, and, when `-pem` is set, PEM-encode
the bytes to the log writer (a write failure aborts after the line was
logged).  `i` is the index of the first element of the remaining list. -/
def processLoop (env : DirectEnv) (pem : Bool) : List Bytes → Nat → List String × Option RunErr
  | [], _ => ([], none)
  | der :: rest, i =>
    match env.parse der with
    | .error m => ([], some (.certParse m))
    | .ok (cn, nb) =>
      let line := "CommonName: (" ++ cn ++ ") Issued On: (" ++ nb ++ ")"
      let pemErr : Option String :=
        if pem then
          match env.pemFailAt with
          | some (j, m) => if j = i then some m else none
          | none => none
        else none
      match pemErr with
      | some m => ([line], some (.pemEncodeFail m))
      | none =>
        let s := processLoop env pem rest (i + 1)
        (line :: s.1, s.2)

/-- `run` of the direct variant, after flag parsing: `args` are the positional
arguments (`flag.Args()`), `limit` the value of `-n`, `pem` the value of
`-pem`.  With anything other than exactly one positional argument it returns
`errExpectedArguments` before touching the network; otherwise it calls
`getCertificates` and, on success, processes the returned DER sequences. -/
def run_direct (env : DirectEnv) (limit : Int) (pem : Bool) (args : List String) : RunOut :=
  if args.length = 1 then
    let d := args.getD 0 ""
    let g := getCertificates_direct env d limit
    if g.2 = [] then
      let s := processLoop env pem g.1 0
      ⟨s.2, s.1, some (d, limit)⟩
    else ⟨some (.getCerts d g.2), [], some (d, limit)⟩
  else ⟨some .usage, [], none⟩

/-- `run` of the aggregated variant (`main.go`), after flag parsing.  The row
lines are logged inside `getCertificates` itself, so they are part of the
output even when the call afterwards reports an error; on success `run`
additionally logs the returned (always nil) slice, which is not a
certificate/row entry. -/
def run_agg (env : AggEnv) (limit : Int) (args : List String) : RunOut :=
  if args.length = 1 then
    let d := args.getD 0 ""
    let g := getCertificates_agg env d limit
    if g.1.2 = [] then ⟨none, g.2, some (d, limit)⟩
    else ⟨some (.getCerts d g.1.2), g.2, some (d, limit)⟩
  else ⟨some .usage, [], none⟩

/-- How `main` renders the error returned by `run` (`log.Fatal(err)` prints
the error text).  The direct variant's `run` wraps `getCertificates` errors
as `could not getCertificates of (<domain>) error (<err>)`. -/
def renderRunErr : RunErr → String
  | .usage => "expected 1 argument: domain name"
  | .getCerts d es =>
    "could not getCertificates of (" ++ d ++ ") error (" ++ String.intercalate "; " es ++ ")"
  | .certParse m => "could not parse x509 certificate (" ++ m ++ ")"
  | .pemEncodeFail m => "could not encode PEM (" ++ m ++ ")"

/-- Exit status of `main`: `log.Fatal` exits with status 1 on any error
returned by `run`, and the process exits with status 0 otherwise. -/
def mainExit (r : RunOut) : Nat :=
  match r.err with
  | some _ => 1
  | none => 0

/-- What `main` writes to the error stream (the `log` package's default
output) about the run outcome: the single rendered error of a failed run,
nothing for a successful one. -/
def mainStderr (r : RunOut) : List String :=
  match r.err with
  | some e => [renderRunErr e]
  | none => []

/-- The base64 alphabet, index 0–63. -/
def b64Alphabet : List Char :=
  "ABCDEFGHIJKLMNOPQRSTUVWXYZabcdefghijklmnopqrstuvwxyz0123456789+/".data

/-- Character of a six-bit group. -/
def b64Char (n : Nat) : Char := b64Alphabet.getD n '?'

/-- Six-bit value of an alphabet character (by position in the alphabet). -/
def b64Val (c : Char) : Nat := b64Alphabet.indexOf c

/-- Modelled from the spec: base64 encoding of a byte sequence (the body of
the "textual armored block format" produced by the external PEM encoder,
which is not part of this repository).  Bytes are taken three at a time into
four six-bit characters; a final group of one or two bytes is padded with
`=`. -/
def b64EncodeChunks : List Nat → List Char
  | [] => []
  | [a] => [b64Char (a / 4), b64Char (a % 4 * 16), '=', '=']
  | [a, b] => [b64Char (a / 4), b64Char (a % 4 * 16 + b / 16), b64Char (b % 16 * 4), '=']
  | a :: b :: c :: rest =>
    b64Char (a / 4) :: b64Char (a % 4 * 16 + b / 16) ::
      b64Char (b % 16 * 4 + c / 64) :: b64Char (c % 64) :: b64EncodeChunks rest

/-- Modelled from the spec: base64 decoding, the inverse direction of the
external armoring library.  Characters are consumed four at a time; `=`
padding is accepted only in the final group. -/
def b64DecodeChunks : List Char → Option (List Nat)
  | [] => some []
  | c1 :: c2 :: c3 :: c4 :: rest =>
    if c3 = '=' then
      if rest = [] ∧ c4 = '=' then some [b64Val c1 * 4 + b64Val c2 / 16] else none
    else if c4 = '=' then
      if rest = [] then
        some [b64Val c1 * 4 + b64Val c2 / 16, b64Val c2 % 16 * 16 + b64Val c3 / 4]
      else none
    else
      (b64DecodeChunks rest).map
        (fun ds => (b64Val c1 * 4 + b64Val c2 / 16) :: (b64Val c2 % 16 * 16 + b64Val c3 / 4) ::
          (b64Val c3 % 4 * 64 + b64Val c4) :: ds)
  | _ => none

/-- Body-wrapping worker: `col` is the number of characters already written on
the current line; a newline is inserted after every 64th character and after
the final character. -/
def wrap64Aux : List Char → Nat → List Char
  | [], _ => []
  | [c], _ => [c, '\n']
  | c :: cs, col =>
    if col = 63 then c :: '\n' :: wrap64Aux cs 0
    else c :: wrap64Aux cs (col + 1)

/-- Modelled from the spec: the armored body is wrapped into lines of at most
64 characters, each terminated by a newline. -/
def wrap64 (l : List Char) : List Char := wrap64Aux l 0

/-- First delimiter line written for the type label `CERTIFICATE`. -/
def pemHeader : List Char := "-----BEGIN CERTIFICATE-----\n".data

/-- Last delimiter line written for the type label `CERTIFICATE`. -/
def pemFooter : List Char := "-----END CERTIFICATE-----\n".data

/-- Modelled from the spec: the external PEM encoder (`pem.Encode` with a
block of type `CERTIFICATE`) — delimiter line, base64 body wrapped at 64
characters, closing delimiter line. -/
def pemEncode (b : List Nat) : List Char :=
  pemHeader ++ wrap64 (b64EncodeChunks b) ++ pemFooter

/-- Removes `p` from the front of `l`, if present. -/
def stripPrefixL (p l : List Char) : Option (List Char) :=
  if l.take p.length = p then some (l.drop p.length) else none

/-- Removes `s` from the end of `l`, if present. -/
def stripSuffixL (s l : List Char) : Option (List Char) :=
  if s.length ≤ l.length ∧ l.drop (l.length - s.length) = s then
    some (l.take (l.length - s.length))
  else none

/-- Modelled from the spec: the external PEM decoder — strip the delimiter
lines, drop the line breaks of the body, base64-decode what remains. -/
def pemDecode (t : List Char) : Option (List Nat) :=
  match stripPrefixL pemHeader t with
  | none => none
  | some t1 =>
    match stripSuffixL pemFooter t1 with
    | none => none
    | some body => b64DecodeChunks (body.filter (fun c => c != '\n'))

/-- A fully defaulted direct-variant environment: empty table, every external
step succeeds. -/
def envClean : DirectEnv := {}

/-- A fully defaulted aggregated-variant environment. -/
def envCleanA : AggEnv := {}

/-- Environment in which both `Close` calls of the row cursor and the
connection fail while everything else succeeds (direct variant). -/
def envCloseFail : DirectEnv :=
  { rowsCloseErr := some "rows close failed", dbCloseErr := some "db close failed" }

/-- Environment in which both `Close` calls fail while everything else
succeeds (aggregated variant). -/
def envCloseFailA : AggEnv :=
  { rowsCloseErr := some "rows close failed", dbCloseErr := some "db close failed" }

/-- A table holding one row whose `name_value` strictly contains
`"github.com"` as a substring without being LIKE-equal to it. -/
def envSubstring : DirectEnv := { table := [⟨"xgithub.com", [1], 1⟩] }

/-- An example row of the aggregated result set. -/
def row8Ex : Row8 := ⟨"123", "ExampleCA", "github.com", "456", "t0", "t1", "t2", "0a1b"⟩

/-- Aggregated environment whose cursor yields exactly one row. -/
def envOneRowA : AggEnv := { selected := [row8Ex] }

/-- Direct environment whose cursor yields exactly one certificate. -/
def envOneRow : DirectEnv :=
  { table := [⟨"a.com", [3, 4], 7⟩],
    parse := fun _ => .ok ("a.com", "2024-01-01 00:00:00 +0000 UTC") }

/-- Direct environment with two matching rows where the certificate with the
smaller id fails to parse: the one with the larger id is processed (and its
entry logged) first. -/
def envParseFail : DirectEnv :=
  { table := [⟨"d", [1], 1⟩, ⟨"d", [2], 2⟩],
    parse := fun der =>
      if der = [2] then .ok ("CN2", "2024-01-01 00:00:00 +0000 UTC")
      else .error "x509: malformed certificate" }

/-! ### Helper lemmas -/

theorem mAppend_ne_nil {l : MErr} (h : l ≠ []) (o : Option String) : mAppend l o ≠ [] := by
  cases o with
  | none => simpa [mAppend] using h
  | some m => simp [mAppend]

theorem directQuery_ok_len {table : List CertRow} {d : String} {L : Int} {out : List Bytes}
    (h : directQuery table d L = .ok out) : out.length ≤ L.toNat := by
  unfold directQuery at h
  split at h
  · simp at h
  · simp only [Except.ok.injEq] at h
    subst h
    exact List.length_take_le _ _

theorem directCursor_ok_len {env : DirectEnv} {d : String} {L : Int} {out : List Bytes}
    (h : directCursor env d L = .ok out) : out.length ≤ L.toNat := by
  unfold directCursor at h
  split at h
  · simp at h
  · exact directQuery_ok_len h

theorem directScanLoop_fst {rows : List Bytes} {f : Option (Nat × String)} :
    (directScanLoop rows f).1 = [] ∨ (directScanLoop rows f).1 = rows := by
  unfold directScanLoop
  rcases f with _ | ⟨i, m⟩
  · right; rfl
  · simp only []
    split
    · left; rfl
    · right; rfl

theorem getCertificates_direct_len_le (env : DirectEnv) (d : String) (L : Int) :
    (getCertificates_direct env d L).1.length ≤ L.toNat := by
  unfold getCertificates_direct
  rcases ho : env.openErr with _ | e
  · simp only []
    rcases hc : directCursor env d L with e | rows
    · simp
    · simp only []
      rcases @directScanLoop_fst rows env.scanFailAt with h1 | h1 <;> rw [h1]
      · simp
      · exact directCursor_ok_len hc
  · simp

theorem processLoop_len_le (env : DirectEnv) (pem : Bool) :
    ∀ (l : List Bytes) (i : Nat), (processLoop env pem l i).1.length ≤ l.length := by
  intro l
  induction l with
  | nil => intro i; simp [processLoop]
  | cons der rest ih =>
    intro i
    simp only [processLoop]
    split
    · simp
    · split
      · simp
      · simpa using Nat.succ_le_succ (ih (i + 1))

theorem processLoop_success_len (env : DirectEnv) (pem : Bool) :
    ∀ (l : List Bytes) (i : Nat), (processLoop env pem l i).2 = none →
      (processLoop env pem l i).1.length = l.length := by
  intro l
  induction l with
  | nil => intro i _; simp [processLoop]
  | cons der rest ih =>
    intro i h
    simp only [processLoop] at h ⊢
    split at h
    · simp at h
    · split at h
      · simp at h
      · simpa using ih (i + 1) h

theorem processLoop_snd_ne_usage (env : DirectEnv) (pem : Bool) :
    ∀ (l : List Bytes) (i : Nat), (processLoop env pem l i).2 ≠ some RunErr.usage := by
  intro l
  induction l with
  | nil => intro i; simp [processLoop]
  | cons der rest ih =>
    intro i
    simp only [processLoop]
    split
    · simp
    · split
      · simp
      · simpa using ih (i + 1)

theorem aggScanLoop_len_le :
    ∀ (rows : List Row8) (f : Option (Nat × String)), (aggScanLoop rows f).1.length ≤ rows.length := by
  intro rows
  induction rows with
  | nil => intro f; simp [aggScanLoop]
  | cons r rs ih =>
    intro f
    rcases f with _ | ⟨n, m⟩
    · simpa [aggScanLoop] using Nat.succ_le_succ (ih none)
    · rcases n with _ | n
      · simp [aggScanLoop]
      · simpa [aggScanLoop] using Nat.succ_le_succ (ih (some (n, m)))

theorem aggScanLoop_success :
    ∀ (rows : List Row8) (f : Option (Nat × String)), (aggScanLoop rows f).2 = [] →
      (aggScanLoop rows f).1 = rows.map fmtRow := by
  intro rows
  induction rows with
  | nil => intro f _; simp [aggScanLoop]
  | cons r rs ih =>
    intro f h
    rcases f with _ | ⟨n, m⟩
    · simp only [aggScanLoop] at h ⊢
      simp [ih none h]
    · rcases n with _ | n
      · simp [aggScanLoop] at h
      · simp only [aggScanLoop] at h ⊢
        simp [ih (some (n, m)) h]

theorem aggQuery_ok_len {sel : List Row8} {L : Int} {out : List Row8}
    (h : aggQuery sel L = .ok out) : out.length ≤ L.toNat := by
  unfold aggQuery at h
  split at h
  · simp at h
  · simp only [Except.ok.injEq] at h
    subst h
    exact List.length_take_le _ _

theorem aggCursor_ok_len {env : AggEnv} {L : Int} {out : List Row8}
    (h : aggCursor env L = .ok out) : out.length ≤ L.toNat := by
  unfold aggCursor at h
  split at h
  · simp at h
  · exact aggQuery_ok_len h

theorem getCertificates_agg_logged_len_le (env : AggEnv) (d : String) (L : Int) :
    (getCertificates_agg env d L).2.length ≤ L.toNat := by
  unfold getCertificates_agg
  rcases ho : env.openErr with _ | e
  · simp only []
    rcases hp : env.prepareErr with _ | e
    · simp only []
      rcases hc : aggCursor env L with e | rows
      · simp
      · simp only []
        rcases hcol : env.columnsErr with _ | e
        · simp only []
          exact le_trans (aggScanLoop_len_le rows env.scanFailAt) (aggCursor_ok_len hc)
        · simp
    · simp
  · simp

theorem run_direct_one (env : DirectEnv) (L : Int) (pem : Bool) (d : String) :
    run_direct env L pem [d] =
      if (getCertificates_direct env d L).2 = [] then
        ⟨(processLoop env pem (getCertificates_direct env d L).1 0).2,
         (processLoop env pem (getCertificates_direct env d L).1 0).1, some (d, L)⟩
      else ⟨some (.getCerts d (getCertificates_direct env d L).2), [], some (d, L)⟩ := rfl

theorem run_agg_one (env : AggEnv) (L : Int) (d : String) :
    run_agg env L [d] =
      if (getCertificates_agg env d L).1.2 = [] then
        ⟨none, (getCertificates_agg env d L).2, some (d, L)⟩
      else
        ⟨some (.getCerts d (getCertificates_agg env d L).1.2),
         (getCertificates_agg env d L).2, some (d, L)⟩ := rfl

/-! ### Claim theorems -/

/-- C1: the claim states that in both variants of `getCertificates` cleanup
errors from releasing the connection/statement/cursor are combined with the
originating error into the returned aggregated error.  This holds for the
direct variant, whose result values are named, but the aggregated variant
(`main.go`) declares unnamed result values, so the deferred
`multierror.Append` assignments mutate a dead local: at an input where the
query succeeds and both `rows.Close` and `db.Close` fail, the aggregated
variant returns a nil error while the direct variant returns both cleanup
messages. -/
theorem c1_agg_drops_cleanup_errors :
    (getCertificates_agg envCloseFailA "github.com" 1).1.2 = [] ∧
    (getCertificates_direct envCloseFail "github.com" 1).2 =
      ["rows close failed", "db close failed"] := by
  exact ⟨rfl, rfl⟩

/-- C2: for every limit L ≥ 1, the number of rows returned by
`getCertificates` — and the number of certificate/row entries printed by
`run` — never exceeds L, in both variants (the SQL `LIMIT $2` clause caps the
cursor, and the Go loops produce at most one element/line per cursor row). -/
theorem c2_row_count_le_limit (envD : DirectEnv) (envA : AggEnv) (d : String)
    (L : Int) (pem : Bool) (hL : 1 ≤ L) :
    ((getCertificates_direct envD d L).1.length : Int) ≤ L ∧
    ((run_direct envD L pem [d]).entries.length : Int) ≤ L ∧
    ((getCertificates_agg envA d L).2.length : Int) ≤ L ∧
    ((run_agg envA L [d]).entries.length : Int) ≤ L := by
  have hd := getCertificates_direct_len_le envD d L
  have ha := getCertificates_agg_logged_len_le envA d L
  refine ⟨by omega, ?_, by omega, ?_⟩
  · have : (run_direct envD L pem [d]).entries.length ≤ L.toNat := by
      rw [run_direct_one]
      split
      · exact le_trans (processLoop_len_le envD pem _ 0) hd
      · simp
    omega
  · have : (run_agg envA L [d]).entries.length ≤ L.toNat := by
      rw [run_agg_one]
      split <;> exact ha
    omega

/-- C3: with zero or more than one positional argument, `run` (both variants)
returns the usage error `expected 1 argument: domain name` without ever
calling `getCertificates` (no network contact), prints no entries, and `main`
logs that message to the error stream and exits with status 1. -/
theorem c3_usage_error (envD : DirectEnv) (envA : AggEnv) (L : Int) (pem : Bool)
    (args : List String) (h : args.length ≠ 1) :
    run_direct envD L pem args = ⟨some .usage, [], none⟩ ∧
    run_agg envA L args = ⟨some .usage, [], none⟩ ∧
    mainExit (run_direct envD L pem args) = 1 ∧
    mainExit (run_agg envA L args) = 1 ∧
    mainStderr (run_direct envD L pem args) = ["expected 1 argument: domain name"] ∧
    mainStderr (run_agg envA L args) = ["expected 1 argument: domain name"] := by
  have h1 : run_direct envD L pem args = ⟨some .usage, [], none⟩ := by
    unfold run_direct
    simp [h]
  have h2 : run_agg envA L args = ⟨some .usage, [], none⟩ := by
    unfold run_agg
    simp [h]
  refine ⟨h1, h2, ?_, ?_, ?_, ?_⟩ <;> simp [h1, h2, mainExit, mainStderr, renderRunErr]

/-- C3 witness: invoked with no positional argument. -/
theorem c3_usage_error_witness :
    run_direct envClean 1 false [] = ⟨some .usage, [], none⟩ ∧
    run_agg envCleanA 1 [] = ⟨some .usage, [], none⟩ ∧
    mainExit (run_direct envClean 1 false []) = 1 ∧
    mainExit (run_agg envCleanA 1 []) = 1 ∧
    mainStderr (run_direct envClean 1 false []) = ["expected 1 argument: domain name"] ∧
    mainStderr (run_agg envCleanA 1 []) = ["expected 1 argument: domain name"] :=
  c3_usage_error envClean envCleanA 1 false [] (by decide)

/-- C10: the `-n` limit flag is never validated: for every integer limit,
including zero and negative values, `run` (both variants) raises no usage
error and passes the value unchanged to `getCertificates` as the SQL limit
parameter. -/
theorem c10_limit_not_validated (envD : DirectEnv) (envA : AggEnv) (L : Int)
    (pem : Bool) (d : String) :
    (run_direct envD L pem [d]).called = some (d, L) ∧
    (run_direct envD L pem [d]).err ≠ some RunErr.usage ∧
    (run_agg envA L [d]).called = some (d, L) ∧
    (run_agg envA L [d]).err ≠ some RunErr.usage := by
  refine ⟨?_, ?_, ?_, ?_⟩
  · rw [run_direct_one]
    split <;> rfl
  · rw [run_direct_one]
    split
    · exact processLoop_snd_ne_usage envD pem _ 0
    · simp
  · rw [run_agg_one]
    split <;> rfl
  · rw [run_agg_one]
    split <;> simp

/-- C2 witness: limit 1, empty table — zero rows and entries, at most 1. -/
theorem c2_row_count_le_limit_witness :
    ((getCertificates_direct envClean "github.com" 1).1.length : Int) ≤ 1 ∧
    ((run_direct envClean 1 false ["github.com"]).entries.length : Int) ≤ 1 ∧
    ((getCertificates_agg envCleanA "github.com" 1).2.length : Int) ≤ 1 ∧
    ((run_agg envCleanA 1 ["github.com"]).entries.length : Int) ≤ 1 :=
  c2_row_count_le_limit envClean envCleanA "github.com" 1 false (by decide)

/-! ### Success-path characterisations -/

theorem mAppend_eq_nil {l : MErr} {o : Option String} (h : mAppend l o = []) : l = [] := by
  cases o with
  | none => simpa [mAppend] using h
  | some m => simp [mAppend] at h

theorem getCertificates_direct_success {env : DirectEnv} {d : String} {L : Int}
    {out : List Bytes} (h : getCertificates_direct env d L = (out, [])) :
    directCursor env d L = .ok out := by
  unfold getCertificates_direct at h
  rcases ho : env.openErr with _ | e
  · rw [ho] at h
    simp only [] at h
    rcases hc : directCursor env d L with e | rows
    · rw [hc] at h
      have h2 := congrArg Prod.snd h
      simp only [] at h2
      exact absurd (mAppend_eq_nil h2) (by simp)
    · rw [hc] at h
      have h2 := congrArg Prod.snd h
      have h1 := congrArg Prod.fst h
      simp only [] at h1 h2
      have hs2 : (directScanLoop rows env.scanFailAt).2 = [] :=
        mAppend_eq_nil (mAppend_eq_nil h2)
      have hs1 : (directScanLoop rows env.scanFailAt).1 = rows := by
        unfold directScanLoop at hs2 ⊢
        rcases hf : env.scanFailAt with _ | ⟨i, m⟩
        · rfl
        · simp only []
          split
          · rw [hf] at hs2
            simp at hs2
            split at hs2
            · simp at hs2
            · omega
          · rfl
      rw [hs1] at h1
      exact congrArg Except.ok h1
  · rw [ho] at h
    simp at h

theorem getCertificates_agg_fst_nil (env : AggEnv) (d : String) (L : Int) :
    (getCertificates_agg env d L).1.1 = [] := by
  unfold getCertificates_agg
  rcases ho : env.openErr with _ | e
  · simp only []
    rcases hp : env.prepareErr with _ | e
    · simp only []
      rcases hc : aggCursor env L with e | rows
      · simp
      · simp only []
        rcases hcol : env.columnsErr with _ | e <;> simp
    · simp
  · simp

theorem getCertificates_agg_success {env : AggEnv} {d : String} {L : Int}
    (h : (getCertificates_agg env d L).1.2 = []) :
    ∃ rows, aggCursor env L = .ok rows ∧
      (getCertificates_agg env d L).2 = rows.map fmtRow := by
  unfold getCertificates_agg at h ⊢
  rcases ho : env.openErr with _ | e
  · rw [ho] at h
    simp only [] at h ⊢
    rcases hp : env.prepareErr with _ | e
    · rw [hp] at h
      simp only [] at h ⊢
      rcases hc : aggCursor env L with e | rows
    
      · rw [hc] at h
        simp at h
      · rw [hc] at h
        simp only [] at h ⊢
        rcases hcol : env.columnsErr with _ | e
        · rw [hcol] at h
          simp only [] at h ⊢
          exact ⟨rows, rfl, aggScanLoop_success rows env.scanFailAt h⟩
        · rw [hcol] at h
          simp at h
    · rw [hp] at h
      simp at h
  · rw [ho] at h
    simp at h

theorem directScanLoop_nil (f : Option (Nat × String)) : directScanLoop [] f = ([], []) := by
  rcases f with _ | ⟨i, m⟩ <;> simp [directScanLoop]

theorem getCertificates_direct_zero (env : DirectEnv) (d : String) (L : Int)
    (h1 : env.openErr = none) (h2 : env.rowsCloseErr = none) (h3 : env.dbCloseErr = none)
    (h4 : directCursor env d L = .ok []) :
    getCertificates_direct env d L = ([], []) := by
  unfold getCertificates_direct
  rw [h1]
  simp only [h4, directScanLoop_nil, h2, h3, mAppend]

theorem getCertificates_agg_zero (env : AggEnv) (d : String) (L : Int)
    (h5 : env.openErr = none) (h6 : env.prepareErr = none)
    (h7 : env.columnsErr = none) (h8 : aggCursor env L = .ok []) :
    getCertificates_agg env d L = (([], []), []) := by
  unfold getCertificates_agg
  rw [h5]
  simp only [h6, h8, h7, aggScanLoop]

/-! ### LIKE-pattern lemmas -/

theorem likeMatch_nil (s : List Char) : likeMatch [] s = s.isEmpty := rfl

theorem likeMatch_cons_nil (p : Char) (ps : List Char)
    (h1 : p ≠ '%') (h2 : p ≠ '_') (h3 : p ≠ '\\') :
    likeMatch (p :: ps) [] = false := by
  rw [likeMatch.eq_def]
  simp [h1, h2, h3]

theorem likeMatch_cons_cons (p : Char) (ps : List Char) (d : Char) (s2 : List Char)
    (h1 : p ≠ '%') (h2 : p ≠ '_') (h3 : p ≠ '\\') :
    likeMatch (p :: ps) (d :: s2) = ((p == d) && likeMatch ps s2) := by
  rw [likeMatch.eq_def]
  simp [h1, h2, h3]

theorem likeMatch_noWild : ∀ (p s : List Char),
    (∀ c ∈ p, c ≠ '%' ∧ c ≠ '_' ∧ c ≠ '\\') → (likeMatch p s = true ↔ p = s) := by
  intro p
  induction p with
  | nil =>
    intro s _
    cases s <;> simp [likeMatch_nil]
  | cons c ps ih =>
    intro s h
    have hc := h c (List.mem_cons_self c ps)
    have hps : ∀ x ∈ ps, x ≠ '%' ∧ x ≠ '_' ∧ x ≠ '\\' :=
      fun x hx => h x (List.mem_cons_of_mem c hx)
    cases s with
    | nil =>
      rw [likeMatch_cons_nil c ps hc.1 hc.2.1 hc.2.2]
      simp
    | cons d s2 =>
      rw [likeMatch_cons_cons c ps d s2 hc.1 hc.2.1 hc.2.2]
      simp [ih s2 hps, Bool.and_eq_true, beq_iff_eq]

theorem directQuery_mem {table : List CertRow} {d : String} {L : Int} {out : List Bytes}
    (h : directQuery table d L = .ok out) {c : Bytes} (hc : c ∈ out) :
    ∃ r ∈ table, r.certificate = c ∧ likeMatch d.data r.name_value.data = true := by
  unfold directQuery at h
  split at h
  · simp at h
  · simp only [Except.ok.injEq] at h
    subst h
    have hc2 := List.take_subset _ _ hc
    rcases List.mem_map.mp hc2 with ⟨r, hr, hrc⟩
    rw [List.mem_insertionSort] at hr
    rcases List.mem_filter.mp hr with ⟨hrt, hpred⟩
    exact ⟨r, hrt, hrc, by simpa using hpred⟩

/-! ### Claims C4, C5, C7, C8 -/

/-- C4 counterexample: the claim says every row whose `name_value` contains
the domain name as a substring is eligible.  With the table holding the single
row `name_value = "xgithub.com"` — which contains `"github.com"` as a
substring — the direct variant's query for `"github.com"` (limit 5) returns no
rows at all, because `name_value LIKE $1` uses the bare domain name as the
pattern, without surrounding `%` wildcards. -/
theorem c4_substring_not_eligible :
    (∃ pre post : List Char, "xgithub.com".data = pre ++ "github.com".data ++ post) ∧
    directQuery envSubstring.table "github.com" 5 = .ok [] ∧
    (getCertificates_direct envSubstring "github.com" 5).1 = [] := by
  exact ⟨⟨['x'], [], by decide⟩, rfl, rfl⟩

/-- C4 (amended): in the direct variant the query selects raw certificate
bytes from the certificate table filtered by SQL LIKE match of `name_value`
against d (d is the LIKE pattern itself, so with no wildcard characters in d
only rows whose `name_value` equals d exactly are eligible, not substring
containment), ordered by descending certificate identifier, capped at the
limit. -/
theorem c4_like_filter (table : List CertRow) (d : String) (L : Int) (out : List Bytes)
    (h : directQuery table d L = .ok out) :
    (∀ c ∈ out, ∃ r ∈ table, r.certificate = c ∧ likeMatch d.data r.name_value.data = true) ∧
    ((∀ ch ∈ d.data, ch ≠ '%' ∧ ch ≠ '_' ∧ ch ≠ '\\') →
      ∀ c ∈ out, ∃ r ∈ table, r.certificate = c ∧ r.name_value = d) ∧
    out.length ≤ L.toNat ∧
    List.Pairwise idGe
      (List.insertionSort idGe (table.filter (fun r => likeMatch d.data r.name_value.data))) := by
  refine ⟨fun c hc => directQuery_mem h hc, ?_, directQuery_ok_len h, ?_⟩
  · intro hw c hc
    rcases directQuery_mem h hc with ⟨r, hrt, hrc, hlm⟩
    refine ⟨r, hrt, hrc, ?_⟩
    exact (String.ext ((likeMatch_noWild d.data r.name_value.data hw).mp hlm)).symm
  · exact List.sorted_insertionSort idGe _

/-- C4 witness: a one-row table whose `name_value` equals the queried name. -/
theorem c4_like_filter_witness :
    (∀ c ∈ [[(3 : Nat), 4]], ∃ r ∈ envOneRow.table, r.certificate = c ∧
      likeMatch "a.com".data r.name_value.data = true) ∧
    ((∀ ch ∈ "a.com".data, ch ≠ '%' ∧ ch ≠ '_' ∧ ch ≠ '\\') →
      ∀ c ∈ [[(3 : Nat), 4]], ∃ r ∈ envOneRow.table, r.certificate = c ∧ r.name_value = "a.com") ∧
    ([[(3 : Nat), 4]] : List Bytes).length ≤ (1 : Int).toNat ∧
    List.Pairwise idGe (List.insertionSort idGe
      (envOneRow.table.filter (fun r => likeMatch "a.com".data r.name_value.data))) :=
  c4_like_filter envOneRow.table "a.com" 1 [[3, 4]] rfl

/-- C5 counterexample: the claim says `getCertificates` returns, on success,
one element per cursor row.  In the aggregated variant a cursor with exactly
one row yields a successful call whose returned sequence is empty: `main.go`
logs the rows and returns `nil, nil`. -/
theorem c5_agg_returns_nil :
    aggCursor envOneRowA 1 = .ok [row8Ex] ∧
    (getCertificates_agg envOneRowA "github.com" 1).1 = ([], []) := by
  exact ⟨rfl, rfl⟩

/-- C5 (amended): on success the direct variant returns exactly the rows the
cursor yielded, one element per row in cursor order; the aggregated variant
instead logs one line per cursor row during iteration and always returns the
empty (nil) sequence. -/
theorem c5_success_rows (envD : DirectEnv) (envA : AggEnv) (d : String) (L : Int) :
    (∀ out, getCertificates_direct envD d L = (out, []) → directCursor envD d L = .ok out) ∧
    (getCertificates_agg envA d L).1.1 = [] ∧
    ((getCertificates_agg envA d L).1.2 = [] →
      ∃ rows, aggCursor envA L = .ok rows ∧
        (getCertificates_agg envA d L).2 = rows.map fmtRow) := by
  exact ⟨fun _ h => getCertificates_direct_success h,
    getCertificates_agg_fst_nil envA d L,
    fun h => getCertificates_agg_success h⟩

/-- C5 witness: one-row cursors in both variants. -/
theorem c5_success_rows_witness :
    directCursor envOneRow "a.com" 1 = .ok [[3, 4]] ∧
    (getCertificates_agg envOneRowA "a.com" 1).1.1 = [] ∧
    (∃ rows, aggCursor envOneRowA 1 = .ok rows ∧
      (getCertificates_agg envOneRowA "a.com" 1).2 = rows.map fmtRow) :=
  ⟨(c5_success_rows envOneRow envOneRowA "a.com" 1).1 [[3, 4]] rfl,
   (c5_success_rows envOneRow envOneRowA "a.com" 1).2.1,
   (c5_success_rows envOneRow envOneRowA "a.com" 1).2.2 rfl⟩

/-- C7 counterexample: the claim says no certificate entries are printed on a
run that exits with an error.  With two matching certificates where the
second one processed fails to parse, the run returns a parse error (so `main`
exits nonzero) although the first certificate's entry was already printed. -/
theorem c7_partial_entries_on_failure :
    (run_direct envParseFail 2 false ["d"]).err =
      some (.certParse "x509: malformed certificate") ∧
    (run_direct envParseFail 2 false ["d"]).entries =
      ["CommonName: (CN2) Issued On: (2024-01-01 00:00:00 +0000 UTC)"] ∧
    mainExit (run_direct envParseFail 2 false ["d"]) = 1 := by
  exact ⟨rfl, rfl, rfl⟩

/-- C7 (amended): either the run succeeds and an entry is printed for every
returned row, or the run is reported as failed — the error is logged once to
the error stream and the process exits nonzero; entries printed for rows
processed before the failure remain in the output. -/
theorem c7_all_or_reported_failed (envD : DirectEnv) (envA : AggEnv) (L : Int)
    (pem : Bool) (d : String) :
    ((run_direct envD L pem [d]).err = none →
      (run_direct envD L pem [d]).entries.length =
        (getCertificates_direct envD d L).1.length) ∧
    (∀ e, (run_direct envD L pem [d]).err = some e →
      mainExit (run_direct envD L pem [d]) = 1 ∧
      mainStderr (run_direct envD L pem [d]) = [renderRunErr e]) ∧
    ((run_agg envA L [d]).err = none →
      ∃ rows, aggCursor envA L = .ok rows ∧
        (run_agg envA L [d]).entries = rows.map fmtRow) ∧
    (∀ e, (run_agg envA L [d]).err = some e →
      mainExit (run_agg envA L [d]) = 1 ∧
      mainStderr (run_agg envA L [d]) = [renderRunErr e]) := by
  refine ⟨?_, ?_, ?_, ?_⟩
  · rw [run_direct_one]
    split
    · intro h
      exact processLoop_success_len envD pem _ 0 h
    · intro h
      simp at h
  · rw [run_direct_one]
    split
    · intro e he
      simp only [] at he
      simp [mainExit, mainStderr, he]
    · intro e he
      simp only [Option.some.injEq] at he
      subst he
      simp [mainExit, mainStderr]
  · rw [run_agg_one]
    split
    · next hnil =>
        intro _
        exact getCertificates_agg_success hnil
    · intro h
      simp at h
  · rw [run_agg_one]
    split
    · intro e he
      simp at he
    · intro e he
      simp only [Option.some.injEq] at he
      subst he
      simp [mainExit, mainStderr]

/-- C7 witness: a fully successful run and a run failing mid-processing. -/
theorem c7_all_or_reported_failed_witness :
    (run_direct envOneRow 1 false ["a.com"]).entries.length =
      (getCertificates_direct envOneRow "a.com" 1).1.length ∧
    mainExit (run_direct envParseFail 2 false ["d"]) = 1 ∧
    mainStderr (run_direct envParseFail 2 false ["d"]) =
      [renderRunErr (.certParse "x509: malformed certificate")] ∧
    (∃ rows, aggCursor envOneRowA 1 = .ok rows ∧
      (run_agg envOneRowA 1 ["a.com"]).entries = rows.map fmtRow) :=
  ⟨(c7_all_or_reported_failed envOneRow envOneRowA 1 false "a.com").1 rfl,
   ((c7_all_or_reported_failed envParseFail envOneRowA 2 false "d").2.1
     (.certParse "x509: malformed certificate") rfl).1,
   ((c7_all_or_reported_failed envParseFail envOneRowA 2 false "d").2.1
     (.certParse "x509: malformed certificate") rfl).2,
   (c7_all_or_reported_failed envOneRow envOneRowA 1 false "a.com").2.2.1 rfl⟩

/-- C8: a query returning zero rows is not an error: the run prints no
entries, returns no error, and the process exits with status zero (both
variants; the remaining external steps succeed). -/
theorem c8_zero_rows_success (envD : DirectEnv) (envA : AggEnv) (d : String)
    (L : Int) (pem : Bool)
    (h1 : envD.openErr = none) (h2 : envD.rowsCloseErr = none)
    (h3 : envD.dbCloseErr = none) (h4 : directCursor envD d L = .ok [])
    (h5 : envA.openErr = none) (h6 : envA.prepareErr = none)
    (h7 : envA.columnsErr = none) (h8 : aggCursor envA L = .ok []) :
    run_direct envD L pem [d] = ⟨none, [], some (d, L)⟩ ∧
    mainExit (run_direct envD L pem [d]) = 0 ∧
    run_agg envA L [d] = ⟨none, [], some (d, L)⟩ ∧
    mainExit (run_agg envA L [d]) = 0 := by
  have hd : run_direct envD L pem [d] = ⟨none, [], some (d, L)⟩ := by
    rw [run_direct_one, getCertificates_direct_zero envD d L h1 h2 h3 h4]
    simp [processLoop]
  have ha : run_agg envA L [d] = ⟨none, [], some (d, L)⟩ := by
    rw [run_agg_one, getCertificates_agg_zero envA d L h5 h6 h7 h8]
    simp
  exact ⟨hd, by simp [hd, mainExit], ha, by simp [ha, mainExit]⟩

/-- C8 witness: the empty table yields zero rows, empty output, exit 0. -/
theorem c8_zero_rows_success_witness :
    run_direct envClean 1 false ["github.com"] = ⟨none, [], some ("github.com", 1)⟩ ∧
    mainExit (run_direct envClean 1 false ["github.com"]) = 0 ∧
    run_agg envCleanA 1 ["github.com"] = ⟨none, [], some ("github.com", 1)⟩ ∧
    mainExit (run_agg envCleanA 1 ["github.com"]) = 0 :=
  c8_zero_rows_success envClean envCleanA "github.com" 1 false
    rfl rfl rfl rfl rfl rfl rfl rfl

/-! ### Base64 / PEM lemmas -/

theorem b64Val_b64Char : ∀ n, n < 64 → b64Val (b64Char n) = n := by decide

theorem b64Char_ne_newline : ∀ n, n < 64 → b64Char n ≠ '\n' := by decide

theorem b64Char_ne_pad : ∀ n, n < 64 → b64Char n ≠ '=' := by decide

theorem b64Encode_ne_newline : ∀ (l : List Nat), (∀ x ∈ l, x < 256) →
    ∀ c ∈ b64EncodeChunks l, c ≠ '\n'
  | [], _, c, hc => by simp [b64EncodeChunks] at hc
  | [a], h, c, hc => by
    have ha : a < 256 := h a (by simp)
    simp only [b64EncodeChunks, List.mem_cons, List.not_mem_nil, or_false] at hc
    rcases hc with h1 | h1 | h1 | h1 <;> subst h1
    · exact b64Char_ne_newline _ (by omega)
    · exact b64Char_ne_newline _ (by omega)
    · decide
    · decide
  | [a, b], h, c, hc => by
    have ha : a < 256 := h a (by simp)
    have hb : b < 256 := h b (by simp)
    simp only [b64EncodeChunks, List.mem_cons, List.not_mem_nil, or_false] at hc
    rcases hc with h1 | h1 | h1 | h1 <;> subst h1
    · exact b64Char_ne_newline _ (by omega)
    · exact b64Char_ne_newline _ (by omega)
    · exact b64Char_ne_newline _ (by omega)
    · decide
  | a :: b :: c0 :: rest, h, c, hc => by
    have ha : a < 256 := h a (by simp)
    have hb : b < 256 := h b (by simp)
    have hc0 : c0 < 256 := h c0 (by simp)
    have hrest : ∀ x ∈ rest, x < 256 := fun x hx => h x (by simp [hx])
    simp only [b64EncodeChunks, List.mem_cons] at hc
    rcases hc with h1 | h1 | h1 | h1 | h1
    · subst h1; exact b64Char_ne_newline _ (by omega)
    · subst h1; exact b64Char_ne_newline _ (by omega)
    · subst h1; exact b64Char_ne_newline _ (by omega)
    · subst h1; exact b64Char_ne_newline _ (by omega)
    · exact b64Encode_ne_newline rest hrest c h1

theorem b64DecodeChunks_cons4 (c1 c2 c3 c4 : Char) (rest : List Char) :
    b64DecodeChunks (c1 :: c2 :: c3 :: c4 :: rest) =
      (if c3 = '=' then
        if rest = [] ∧ c4 = '=' then some [b64Val c1 * 4 + b64Val c2 / 16] else none
      else if c4 = '=' then
        if rest = [] then
          some [b64Val c1 * 4 + b64Val c2 / 16, b64Val c2 % 16 * 16 + b64Val c3 / 4]
        else none
      else
        (b64DecodeChunks rest).map
          (fun ds => (b64Val c1 * 4 + b64Val c2 / 16) :: (b64Val c2 % 16 * 16 + b64Val c3 / 4) ::
            (b64Val c3 % 4 * 64 + b64Val c4) :: ds)) := rfl

theorem b64_roundtrip : ∀ (l : List Nat), (∀ x ∈ l, x < 256) →
    b64DecodeChunks (b64EncodeChunks l) = some l
  | [], _ => rfl
  | [a], h => by
    have ha : a < 256 := h a (by simp)
    show b64DecodeChunks [b64Char (a / 4), b64Char (a % 4 * 16), '=', '='] = some [a]
    rw [b64DecodeChunks_cons4, if_pos rfl,
      if_pos (show ([] : List Char) = [] ∧ '=' = '=' from ⟨rfl, rfl⟩)]
    rw [b64Val_b64Char _ (by omega : a / 4 < 64), b64Val_b64Char _ (by omega : a % 4 * 16 < 64)]
    have : a / 4 * 4 + a % 4 * 16 / 16 = a := by omega
    rw [this]
  | [a, b], h => by
    have ha : a < 256 := h a (by simp)
    have hb : b < 256 := h b (by simp)
    show b64DecodeChunks
        [b64Char (a / 4), b64Char (a % 4 * 16 + b / 16), b64Char (b % 16 * 4), '='] = some [a, b]
    rw [b64DecodeChunks_cons4, if_neg (b64Char_ne_pad _ (by omega : b % 16 * 4 < 64)),
      if_pos rfl, if_pos rfl]
    rw [b64Val_b64Char _ (by omega : a / 4 < 64),
      b64Val_b64Char _ (by omega : a % 4 * 16 + b / 16 < 64),
      b64Val_b64Char _ (by omega : b % 16 * 4 < 64)]
    have h1 : a / 4 * 4 + (a % 4 * 16 + b / 16) / 16 = a := by omega
    have h2 : (a % 4 * 16 + b / 16) % 16 * 16 + b % 16 * 4 / 4 = b := by omega
    rw [h1, h2]
  | a :: b :: c :: rest, h => by
    have ha : a < 256 := h a (by simp)
    have hb : b < 256 := h b (by simp)
    have hcc : c < 256 := h c (by simp)
    have hrest : ∀ x ∈ rest, x < 256 := fun x hx => h x (by simp [hx])
    have IH := b64_roundtrip rest hrest
    show b64DecodeChunks
        (b64Char (a / 4) :: b64Char (a % 4 * 16 + b / 16) ::
          b64Char (b % 16 * 4 + c / 64) :: b64Char (c % 64) :: b64EncodeChunks rest) =
      some (a :: b :: c :: rest)
    rw [b64DecodeChunks_cons4, if_neg (b64Char_ne_pad _ (by omega : b % 16 * 4 + c / 64 < 64)),
      if_neg (b64Char_ne_pad _ (by omega : c % 64 < 64)), IH]
    rw [b64Val_b64Char _ (by omega : a / 4 < 64),
      b64Val_b64Char _ (by omega : a % 4 * 16 + b / 16 < 64),
      b64Val_b64Char _ (by omega : b % 16 * 4 + c / 64 < 64),
      b64Val_b64Char _ (by omega : c % 64 < 64)]
    have h1 : a / 4 * 4 + (a % 4 * 16 + b / 16) / 16 = a := by omega
    have h2 : (a % 4 * 16 + b / 16) % 16 * 16 + (b % 16 * 4 + c / 64) / 4 = b := by omega
    have h3 : (b % 16 * 4 + c / 64) % 4 * 64 + c % 64 = c := by omega
    simp only [Option.map_some', h1, h2, h3]

theorem wrap64Aux_cons2 (c c2 : Char) (cs : List Char) (col : Nat) :
    wrap64Aux (c :: c2 :: cs) col =
      if col = 63 then c :: '\n' :: wrap64Aux (c2 :: cs) 0
      else c :: wrap64Aux (c2 :: cs) (col + 1) := rfl

theorem filter_wrap64Aux : ∀ (l : List Char) (col : Nat), (∀ c ∈ l, c ≠ '\n') →
    (wrap64Aux l col).filter (fun c => c != '\n') = l
  | [], _, _ => by simp [wrap64Aux]
  | [c], col, h => by
    have hc : (c != '\n') = true := by simpa using h c (by simp)
    simp [wrap64Aux, List.filter, hc]
  | c :: c2 :: cs, col, h => by
    have hc : (c != '\n') = true := by simpa using h c (by simp)
    have hrest : ∀ x ∈ c2 :: cs, x ≠ '\n' := fun x hx => h x (by simp [hx])
    rw [wrap64Aux_cons2]
    split
    · rw [List.filter_cons, List.filter_cons]
      simp [hc, filter_wrap64Aux (c2 :: cs) 0 hrest]
    · rw [List.filter_cons]
      simp [hc, filter_wrap64Aux (c2 :: cs) (col + 1) hrest]

theorem take_len_append (p l : List Char) : (p ++ l).take p.length = p := by
  induction p with
  | nil => simp
  | cons c cs ih => simp [ih]

theorem drop_len_append (p l : List Char) : (p ++ l).drop p.length = l := by
  induction p with
  | nil => simp
  | cons c cs ih => simp [ih]

theorem stripPrefixL_append (p l : List Char) : stripPrefixL p (p ++ l) = some l := by
  unfold stripPrefixL
  rw [if_pos (take_len_append p l), drop_len_append]

theorem stripSuffixL_append (s l : List Char) : stripSuffixL s (l ++ s) = some l := by
  unfold stripSuffixL
  have h1 : (l ++ s).length = l.length + s.length := by simp
  rw [if_pos]
  · rw [h1, Nat.add_sub_cancel, take_len_append]
  · refine ⟨by omega, ?_⟩
    rw [h1, Nat.add_sub_cancel, drop_len_append]

/-- C6: round-trip of the armored text form with type label CERTIFICATE —
encoding any raw certificate byte sequence to the PEM block and decoding that
block yields exactly the original bytes. -/
theorem c6_pem_roundtrip (b : List Nat) (h : ∀ x ∈ b, x < 256) :
    pemDecode (pemEncode b) = some b := by
  unfold pemEncode pemDecode
  rw [List.append_assoc, stripPrefixL_append]
  simp only []
  rw [stripSuffixL_append]
  simp only [wrap64]
  rw [filter_wrap64Aux (b64EncodeChunks b) 0 (b64Encode_ne_newline b h)]
  exact b64_roundtrip b h

/-- C6 witness: a sample DER byte sequence round-trips. -/
theorem c6_pem_roundtrip_witness :
    pemDecode (pemEncode [48, 130, 1, 10, 255, 0, 77]) = some [48, 130, 1, 10, 255, 0, 77] :=
  c6_pem_roundtrip [48, 130, 1, 10, 255, 0, 77] (by decide)
